import Mathlib

/-!
Verification of the natural-language-to-SQL layer of the AI-powered SQL
dashboard (`Modules/query_processor.py`, class `QueryProcessor`).

The Python code is shallowly embedded over `List Char`:

* `clean_sql_query` (the spec's `sanitize`) strips Markdown code fences,
  collapses whitespace and rejects mutating keywords;
* `validate_sql` (the spec's `validate`) is the advisory boolean check;
* `natural_language_to_sql` (the spec's `resolve`) is the three-tier
  resolution pipeline.  The remote OpenAI call is modelled by a parameter
  `llm : Option (List Char)`: `none` is a failed call (exception, timeout),
  `some txt` a call returning message content `txt`.  The presence of the
  `OPENAI_API_KEY` credential is the parameter `hasKey : Bool`.

Python regexes of the source have the restricted shape
`(?i).*lit1.*(a|b|c).*lit2` ... : a sequence of literal alternation groups
separated by `.*`.  Since `.` does not match a newline and the literals
contain none, such a regex matches (via `re.match`, anchored) exactly when
the groups occur in order inside the first line, and (via `re.search`)
exactly when they occur in order inside some single line.  This is the
semantics implemented by `matchFrom` below.

Whitespace handling (`str.split`, `str.strip`) is modelled for the six
ASCII whitespace characters, which is exact on the ASCII strings this
component manipulates.  All recursive definitions are structural (fuel
where needed) so that every function evaluates inside the kernel.
-/

/-- The six ASCII whitespace characters recognised by Python's
`str.split()` / `str.strip()` (restricted to ASCII). -/
def isSpaceChar (c : Char) : Bool :=
  (c == ' ') || (c == '\t') || (c == '\n') || (c == '\r') ||
  (c == '\x0b') || (c == '\x0c')

/-- The backtick character. -/
def tickChar : Char := Char.ofNat 96

/-- The literal part of the first code-fence regex of `clean_sql_query`. -/
def fenceSqlPat : List Char := "```sql".data

/-- The literal part of the second code-fence regex of `clean_sql_query`. -/
def fencePat : List Char := "```".data

/-- Drop a single leading newline; models the optional `\n` that the
code-fence regexes of `clean_sql_query` consume greedily. -/
def dropNl : List Char → List Char
  | '\n' :: t => t
  | s => s

/-- One step bound for `subDelF`: `re.sub(pat ++ "\n?", '', s)` scanning
left to right, deleting each non-overlapping occurrence of `pat`
(plus a following newline, if any).  `fuel` dominates the number of scan
positions, so `fuel = s.length` is always enough. -/
def subDelF (pat : List Char) : Nat → List Char → List Char
  | 0, s => s
  | _ + 1, [] => []
  | n + 1, c :: rest =>
    if pat.isPrefixOf (c :: rest) && !pat.isEmpty then
      subDelF pat n (dropNl ((c :: rest).drop pat.length))
    else
      c :: subDelF pat n rest

/-- `re.sub(pat ++ "\n?", '', s)` for a literal pattern `pat`. -/
def subDel (pat s : List Char) : List Char := subDelF pat s.length s

/-- Python `s.split()`: maximal runs of non-whitespace characters. -/
def words : List Char → List (List Char)
  | [] => []
  | [c] => if isSpaceChar c then [] else [[c]]
  | c :: d :: rest =>
    if isSpaceChar c then words (d :: rest)
    else if isSpaceChar d then [c] :: words (d :: rest)
    else
      match words (d :: rest) with
      | [] => [[c]]
      | w :: ws => (c :: w) :: ws

/-- Python `' '.join(ws)`. -/
def joinSp : List (List Char) → List Char
  | [] => []
  | [w] => w
  | w :: ws => w ++ ' ' :: joinSp ws

/-- Python `s.strip()` (ASCII whitespace). -/
def stripStr (s : List Char) : List Char :=
  ((s.dropWhile isSpaceChar).reverse.dropWhile isSpaceChar).reverse

/-- Python's substring test `pat in s`. -/
def isSubstring (pat : List Char) : List Char → Bool
  | [] => pat.isEmpty
  | c :: rest => pat.isPrefixOf (c :: rest) || isSubstring pat rest

/-- The `dangerous_keywords` list of `clean_sql_query`, in source order. -/
def dangerous_keywords : List (List Char) :=
  ["DROP".data, "DELETE".data, "INSERT".data, "UPDATE".data,
   "ALTER".data, "CREATE".data, "TRUNCATE".data]

/-- The cleaning pipeline of `clean_sql_query` before the keyword check:
remove ```` ```sql ```` fences, remove ```` ``` ```` fences, then collapse
whitespace (`' '.join(sql_query.split())`). -/
def cleanedText (s : List Char) : List Char :=
  joinSp (words (subDel fencePat (subDel fenceSqlPat s)))

/-- `QueryProcessor.clean_sql_query` (the spec's `sanitize`).  Raising
`ValueError` is modelled as `Except.error` carrying the message.  The
keyword loop checks each keyword against the upper-cased collapsed text and
raises at the first hit when the text does not start with `SELECT`;
otherwise the (stripped) cleaned text is returned. -/
def clean_sql_query (sql_query : List Char) : Except (List Char) (List Char) :=
  let s3 := cleanedText sql_query
  let sqlUpper := s3.map Char.toUpper
  match dangerous_keywords.find?
      (fun kw => isSubstring kw sqlUpper && !("SELECT".data.isPrefixOf sqlUpper)) with
  | some kw =>
      Except.error ("Potentially dangerous SQL operation detected: ".data ++ kw)
  | none => Except.ok (stripStr s3)

/-- `QueryProcessor.validate_sql` (the spec's `validate`): total, returns
`false` when cleaning raises, when the cleaned text does not start with
`SELECT` (case-insensitively) or when parenthesis counts differ. -/
def validate_sql (sql_query : List Char) : Bool :=
  match clean_sql_query sql_query with
  | Except.error _ => false
  | Except.ok cleaned =>
    if !("SELECT".data.isPrefixOf (cleaned.map Char.toUpper)) then false
    else if cleaned.count '(' != cleaned.count ')' then false
    else true

/-! ## The three-tier resolver -/

/-- Bounded matcher for the source's regex shape: `groups` is a sequence of
literal alternation groups that must occur left to right in `s`
(a single line, case already folded).  `fuel` dominates
`groups.length + s.length`, so the wrapper's fuel always suffices. -/
def matchFromF : Nat → List (List (List Char)) → List Char → Bool
  | 0, _, _ => false
  | _ + 1, [], _ => true
  | n + 1, g :: gs, [] => g.any (fun alt => alt.isEmpty && matchFromF n gs [])
  | n + 1, g :: gs, c :: rest =>
    g.any (fun alt =>
        alt.isPrefixOf (c :: rest) && matchFromF n gs ((c :: rest).drop alt.length))
      || matchFromF n (g :: gs) rest

/-- `matchFromF` with sufficient fuel. -/
def matchFrom (groups : List (List (List Char))) (s : List Char) : Bool :=
  matchFromF (groups.length + s.length + 1) groups s

/-- Lower-case a string (the effect of the `(?i)` regex flag, folded onto
the subject; the source patterns are already lower case). -/
def lowerL (s : List Char) : List Char := s.map Char.toLower

/-- The prefix of `s` before the first newline: the only region an
`re.match`-anchored pattern of the form `.*lit.*` can inspect. -/
def firstLine (s : List Char) : List Char := s.takeWhile (fun c => c != '\n')

/-- Split into newline-separated lines, for `re.search` semantics. -/
def linesOf : List Char → List (List Char)
  | [] => [[]]
  | c :: rest =>
    if c = '\n' then [] :: linesOf rest
    else
      match linesOf rest with
      | [] => [[c]]
      | l :: ls => (c :: l) :: ls

/-- The tier-1 `fallback_patterns` dict of `natural_language_to_sql`, in
insertion order.  Each regex `(?i).*lit1.*lit2.*` is represented by its
sequence of literal groups. -/
def fallback_patterns : List (List (List (List Char)) × List Char) :=
  [ ([["all sales".data]],
     "SELECT * FROM sales ORDER BY sale_date DESC".data),
    ([["sales by category".data]],
     "SELECT category, SUM(price * quantity) as total_sales FROM sales GROUP BY category ORDER BY total_sales DESC".data),
    ([["total sales".data]],
     "SELECT SUM(price * quantity) as total_sales FROM sales".data),
    ([["customers".data]],
     "SELECT * FROM customers ORDER BY registration_date DESC".data),
    ([["average age".data]],
     "SELECT AVG(age) as average_age FROM customers".data),
    ([["sales by region".data]],
     "SELECT region, SUM(price * quantity) as total_sales FROM sales GROUP BY region ORDER BY total_sales DESC".data),
    ([["top".data], ["products".data]],
     "SELECT product_name, SUM(quantity) as total_sold FROM sales GROUP BY product_name ORDER BY total_sold DESC LIMIT 10".data),
    ([["recent sales".data]],
     "SELECT * FROM sales ORDER BY sale_date DESC LIMIT 10".data),
    ([["revenue".data]],
     "SELECT SUM(price * quantity) as total_revenue FROM sales".data) ]

/-- The tier-2 `patterns` list of `_rule_based_to_sql`, in source order. -/
def rule_based_patterns : List (List (List (List Char)) × List Char) :=
  [ ([["all".data, "show".data, "display".data], ["sales".data]],
     "SELECT * FROM sales ORDER BY sale_date DESC".data),
    ([["total".data], ["sales".data], ["category".data]],
     "SELECT category, SUM(price * quantity) as total_sales FROM sales GROUP BY category ORDER BY total_sales DESC".data),
    ([["sales".data], ["region".data]],
     "SELECT region, SUM(price * quantity) as total_sales FROM sales GROUP BY region ORDER BY total_sales DESC".data),
    ([["total".data], ["sales".data]],
     "SELECT SUM(price * quantity) as total_sales FROM sales".data),
    ([["revenue".data]],
     "SELECT SUM(price * quantity) as total_revenue FROM sales".data),
    ([["top".data, "best".data], ["products".data]],
     "SELECT product_name, SUM(quantity) as total_sold, SUM(price * quantity) as revenue FROM sales GROUP BY product_name ORDER BY revenue DESC LIMIT 10".data),
    ([["recent".data], ["sales".data]],
     "SELECT * FROM sales ORDER BY sale_date DESC LIMIT 10".data),
    ([["all".data, "show".data, "display".data], ["customers".data]],
     "SELECT * FROM customers ORDER BY registration_date DESC".data),
    ([["average".data], ["age".data]],
     "SELECT AVG(age) as average_age FROM customers".data),
    ([["customers".data], ["city".data]],
     "SELECT city, COUNT(*) as customer_count FROM customers GROUP BY city ORDER BY customer_count DESC".data),
    ([["count".data], ["sales".data]],
     "SELECT COUNT(*) as total_sales_count FROM sales".data),
    ([["count".data], ["customers".data]],
     "SELECT COUNT(*) as total_customers FROM customers".data) ]

/-- `re.match(pattern, q)` for a tier-1 pattern: anchored, so the groups
must occur inside the first line of `q`. -/
def tier1Match (pat : List (List (List Char))) (q : List Char) : Bool :=
  matchFrom pat (lowerL (firstLine q))

/-- `re.search(pattern, q)` for a tier-2 pattern: the groups must occur
inside some single line of `q`. -/
def tier2Match (pat : List (List (List Char))) (q : List Char) : Bool :=
  (linesOf q).any (fun ln => matchFrom pat (lowerL ln))

/-- The tier-1 loop of `natural_language_to_sql`: the SQL of the first
matching entry of `fallback_patterns`, if any. -/
def tier1Find (q : List Char) : Option (List Char) :=
  (fallback_patterns.find? (fun e => tier1Match e.1 q)).map (fun e => e.2)

/-- The loop of `_rule_based_to_sql`: the SQL of the first matching entry
of `rule_based_patterns`, if any. -/
def tier2Find (q : List Char) : Option (List Char) :=
  (rule_based_patterns.find? (fun e => tier2Match e.1 q)).map (fun e => e.2)

/-- `QueryProcessor._rule_based_to_sql`: first tier-2 match, else the
fixed default query. -/
def rule_based_to_sql (q : List Char) : List Char × List Char :=
  match tier2Find q with
  | some sql => (sql, "Rule-based matching".data)
  | none => ("SELECT * FROM sales LIMIT 10".data, "Default fallback".data)

/-- `QueryProcessor._openai_to_sql`: on a successful remote call the
response is stripped and run through `clean_sql_query`; any exception
(failed call, or `ValueError` from the sanitizer) falls back to
`_rule_based_to_sql`. -/
def openai_to_sql (llm : Option (List Char)) (q : List Char) : List Char × List Char :=
  match llm with
  | none => rule_based_to_sql q
  | some txt =>
    match clean_sql_query (stripStr txt) with
    | Except.ok cleaned => (cleaned, "OpenAI GPT".data)
    | Except.error _ => rule_based_to_sql q

/-- The `try`-block body of `natural_language_to_sql`: tier 1, then the
remote call if a credential is configured, else tier 2.  An uncaught
exception inside the body would surface as `Except.error`. -/
def resolveBody (hasKey : Bool) (llm : Option (List Char)) (q : List Char) :
    Except (List Char) (List Char × List Char) :=
  match tier1Find q with
  | some sql => Except.ok (sql, "Pattern matching".data)
  | none =>
    if hasKey then Except.ok (openai_to_sql llm q)
    else Except.ok (rule_based_to_sql q)

/-- The `except`-handler of `natural_language_to_sql`: any exception `e`
escaping the body becomes the degenerate result
`("SELECT 1 as error", "Error: " ++ str(e))`. -/
def resolveHandler (r : Except (List Char) (List Char × List Char)) :
    List Char × List Char :=
  match r with
  | Except.ok p => p
  | Except.error e => ("SELECT 1 as error".data, "Error: ".data ++ e)

/-- `QueryProcessor.natural_language_to_sql` (the spec's `resolve`). -/
def natural_language_to_sql (hasKey : Bool) (llm : Option (List Char))
    (q : List Char) : List Char × List Char :=
  resolveHandler (resolveBody hasKey llm q)

/-- The spec's four abstract method tags for a `ResolvedQuery`. -/
inductive MethodTag
  | pattern
  | ruleBased
  | llm
  | error
deriving DecidableEq

/-- Abstraction map from the method strings produced by the code to the
spec's tags: `"Pattern matching" ↦ pattern`, `"Rule-based matching"` and
`"Default fallback" ↦ rule-based`, `"OpenAI GPT" ↦ llm`, and any
`"Error: ..."` string `↦ error`. -/
def methodTag (m : List Char) : Option MethodTag :=
  if "Error: ".data.isPrefixOf m then some MethodTag.error
  else if m = "Pattern matching".data then some MethodTag.pattern
  else if m = "Rule-based matching".data then some MethodTag.ruleBased
  else if m = "Default fallback".data then some MethodTag.ruleBased
  else if m = "OpenAI GPT".data then some MethodTag.llm
  else none

/-- All fixed SQL strings the resolver can return outside the remote
path: tier-1 SQLs, tier-2 SQLs and the default fallback. -/
def allFixedSqls : List (List Char) :=
  fallback_patterns.map (fun e => e.2) ++
    (rule_based_patterns.map (fun e => e.2) ++ ["SELECT * FROM sales LIMIT 10".data])

/-- Boolean check used to verify the fixed SQL strings: cleaning returns
the string unchanged and validation succeeds. -/
def cleanFixedOk (s : List Char) : Bool :=
  match clean_sql_query s with
  | Except.ok t => (t == s) && validate_sql s
  | Except.error _ => false

/-! ## Basic facts about prefixes and substrings -/

lemma isPrefixOf_eq_true_iff {p q : List Char} :
    p.isPrefixOf q = true ↔ p <+: q := List.isPrefixOf_iff_prefix

lemma bool_eq_false_of_ne_true {b : Bool} (h : ¬ b = true) : b = false := by
  cases b
  · rfl
  · exact absurd rfl h

lemma all_of_isPrefixOf {p s : List Char} {f : Char → Bool}
    (h : p.isPrefixOf s = true) (hs : s.all f = true) : p.all f = true := by
  rcases isPrefixOf_eq_true_iff.mp h with ⟨t, rfl⟩
  rcases List.all_eq_true.mpr fun x hx =>
    List.all_eq_true.mp hs x (List.mem_append.mpr (Or.inl hx)) with h2
  exact h2

lemma isPrefixOf_append_ext {p w b : List Char} (h : p.isPrefixOf w = true) :
    p.isPrefixOf (w ++ b) = true := by
  rcases isPrefixOf_eq_true_iff.mp h with ⟨t, rfl⟩
  exact isPrefixOf_eq_true_iff.mpr ⟨t ++ b, by simp⟩

lemma isSubstring_cons_eq (pat : List Char) (c : Char) (rest : List Char) :
    isSubstring pat (c :: rest) = (pat.isPrefixOf (c :: rest) || isSubstring pat rest) := rfl

lemma isSubstring_of_isPrefixOf {pat s : List Char} (h : pat.isPrefixOf s = true) :
    isSubstring pat s = true := by
  cases s with
  | nil =>
    rcases isPrefixOf_eq_true_iff.mp h with ⟨t, ht⟩
    rcases List.append_eq_nil.mp ht with ⟨rfl, -⟩
    rfl
  | cons c rest => simp [isSubstring_cons_eq, h]

lemma isSubstring_tail_ext {pat t : List Char} (c : Char)
    (h : isSubstring pat t = true) : isSubstring pat (c :: t) = true := by
  simp [isSubstring_cons_eq, h]

lemma isSubstring_append_ext {pat w b : List Char} (h : isSubstring pat w = true) :
    isSubstring pat (w ++ b) = true := by
  induction w with
  | nil =>
    have : pat = [] := List.isEmpty_iff.mp h
    subst this
    cases b with
    | nil => rfl
    | cons c r => exact isSubstring_of_isPrefixOf rfl
  | cons y w2 ih =>
    rw [isSubstring_cons_eq] at h
    rcases Bool.or_eq_true_iff.mp h with h1 | h2
    · exact isSubstring_of_isPrefixOf (isPrefixOf_append_ext (b := b) h1)
    · exact isSubstring_tail_ext y (ih h2)

lemma isSubstring_mono_pat {p q s : List Char} (hpq : p.isPrefixOf q = true)
    (h : isSubstring q s = true) : isSubstring p s = true := by
  induction s with
  | nil =>
    have hq : q = [] := List.isEmpty_iff.mp h
    subst hq
    rcases isPrefixOf_eq_true_iff.mp hpq with ⟨t, ht⟩
    rcases List.append_eq_nil.mp ht with ⟨rfl, -⟩
    rfl
  | cons c rest ih =>
    rw [isSubstring_cons_eq] at h ⊢
    rcases Bool.or_eq_true_iff.mp h with h1 | h2
    · rcases isPrefixOf_eq_true_iff.mp hpq with ⟨t, rfl⟩
      rcases isPrefixOf_eq_true_iff.mp h1 with ⟨u, hu⟩
      refine Bool.or_eq_true_iff.mpr (Or.inl (isPrefixOf_eq_true_iff.mpr ⟨t ++ u, ?_⟩))
      rw [← List.append_assoc, hu]
    · exact Bool.or_eq_true_iff.mpr (Or.inr (ih h2))

lemma subDelF_of_no_occurrence {pat : List Char} :
    ∀ (n : Nat) (s : List Char), isSubstring pat s = false → subDelF pat n s = s := by
  intro n
  induction n with
  | zero => intro s _; rfl
  | succ n ih =>
    intro s hs
    cases s with
    | nil => rfl
    | cons c rest =>
      rw [isSubstring_cons_eq] at hs
      rcases Bool.or_eq_false_iff.mp hs with ⟨h1, h2⟩
      simp only [subDelF]
      rw [h1]
      simp [ih rest h2]

/-! ## The output of the fence stripper contains no triple backtick -/

/-- Length of the maximal leading run of backticks. -/
def headTicks : List Char → Nat
  | [] => 0
  | c :: r => if c = tickChar then headTicks r + 1 else 0

lemma fencePat_eq : fencePat = [tickChar, tickChar, tickChar] := by decide

lemma fence_isPrefixOf_iff_headTicks :
    ∀ s : List Char, fencePat.isPrefixOf s = true ↔ 3 ≤ headTicks s := by
  intro s
  rw [fencePat_eq]
  match s with
  | [] => simp [List.isPrefixOf, headTicks]
  | [a] =>
    simp only [List.isPrefixOf, headTicks, Bool.and_eq_true, beq_iff_eq]
    constructor
    · rintro ⟨-, h⟩; exact absurd h (by simp)
    · intro h; exfalso; split at h <;> omega
  | [a, b] =>
    simp only [List.isPrefixOf, headTicks, Bool.and_eq_true, beq_iff_eq]
    constructor
    · rintro ⟨-, -, h⟩; exact absurd h (by simp)
    · intro h
      exfalso
      split at h
      · split at h <;> omega
      · omega
  | a :: b :: c :: rest =>
    simp only [List.isPrefixOf, headTicks, Bool.and_eq_true, beq_iff_eq]
    constructor
    · rintro ⟨h1, h2, h3, -⟩
      rw [if_pos h1.symm, if_pos h2.symm, if_pos h3.symm]
      omega
    · intro h
      by_cases h1 : a = tickChar
      · by_cases h2 : b = tickChar
        · by_cases h3 : c = tickChar
          · exact ⟨h1.symm, h2.symm, h3.symm, trivial⟩
          · rw [if_pos h1, if_pos h2, if_neg h3] at h; omega
        · rw [if_pos h1, if_neg h2] at h; omega
      · rw [if_neg h1] at h; omega

lemma headTicks_cons (c : Char) (r : List Char) :
    headTicks (c :: r) = if c = tickChar then headTicks r + 1 else 0 := rfl

lemma dropNl_length_le (t : List Char) : (dropNl t).length ≤ t.length := by
  cases t with
  | nil => simp [dropNl]
  | cons c r =>
    by_cases h : c = '\n'
    · subst h; simp [dropNl]
    · have : dropNl (c :: r) = c :: r := by
        unfold dropNl
        split
        · next heq => rw [List.cons.injEq] at heq; exact absurd heq.1 h
        · rfl
      rw [this]

lemma subDelF_fence_inv :
    ∀ (n : Nat) (s : List Char), s.length ≤ n →
      isSubstring fencePat (subDelF fencePat n s) = false ∧
      (headTicks s ≤ 2 → headTicks (subDelF fencePat n s) ≤ headTicks s) := by
  intro n
  induction n with
  | zero =>
    intro s hs
    have hnil : s = [] := List.eq_nil_of_length_eq_zero (Nat.le_zero.mp hs)
    subst hnil
    exact ⟨by decide, fun _ => Nat.le_refl _⟩
  | succ n ih =>
    intro s hs
    match s with
    | [] =>
      constructor
      · simp only [subDelF]; decide
      · intro _; exact Nat.le_refl _
    | c :: rest =>
      by_cases hm : fencePat.isPrefixOf (c :: rest) = true
      · have hcond : (fencePat.isPrefixOf (c :: rest) && !fencePat.isEmpty) = true := by
          rw [hm]; decide
        have hstep : subDelF fencePat (n + 1) (c :: rest) =
            subDelF fencePat n (dropNl ((c :: rest).drop fencePat.length)) := by
          simp only [subDelF]; rw [if_pos hcond]
        have hlen : (dropNl ((c :: rest).drop fencePat.length)).length ≤ n := by
          have h1 := dropNl_length_le ((c :: rest).drop fencePat.length)
          have h2 : ((c :: rest).drop fencePat.length).length =
              (c :: rest).length - fencePat.length := List.length_drop _ _
          have h3 : fencePat.length = 3 := by decide
          simp only [List.length_cons] at hs h2
          omega
        have h3t : 3 ≤ headTicks (c :: rest) :=
          (fence_isPrefixOf_iff_headTicks _).mp hm
        rcases ih _ hlen with ⟨ih1, -⟩
        rw [hstep]
        exact ⟨ih1, fun hle => absurd hle (by omega)⟩
      · have hmf : fencePat.isPrefixOf (c :: rest) = false := by
          cases h : fencePat.isPrefixOf (c :: rest)
          · rfl
          · exact absurd h hm
        have hcond : (fencePat.isPrefixOf (c :: rest) && !fencePat.isEmpty) = false := by
          rw [hmf]; rfl
        have hstep : subDelF fencePat (n + 1) (c :: rest) =
            c :: subDelF fencePat n rest := by
          simp only [subDelF]
          rw [hcond]
          simp
        have hrestlen : rest.length ≤ n := by
          simp only [List.length_cons] at hs; omega
        rcases ih rest hrestlen with ⟨ih1, ih2⟩
        rw [hstep]
        by_cases hc : c = tickChar
        · -- emitted backtick: the tail run of the input has length at most 1
          have hr1 : headTicks rest ≤ 1 := by
            by_contra hgt
            have : 3 ≤ headTicks (c :: rest) := by
              rw [headTicks_cons, if_pos hc]; omega
            exact absurd ((fence_isPrefixOf_iff_headTicks _).mpr this) (by rw [hmf]; simp)
          have hout : headTicks (subDelF fencePat n rest) ≤ headTicks rest :=
            ih2 (by omega)
          constructor
          · rw [isSubstring_cons_eq]
            have hpre : fencePat.isPrefixOf (c :: subDelF fencePat n rest) = false := by
              cases h : fencePat.isPrefixOf (c :: subDelF fencePat n rest)
              · rfl
              · have := (fence_isPrefixOf_iff_headTicks _).mp h
                rw [headTicks_cons, if_pos hc] at this
                omega
            rw [hpre, ih1]
            rfl
          · intro hle
            rw [headTicks_cons, if_pos hc, headTicks_cons, if_pos hc]
            omega
        · constructor
          · rw [isSubstring_cons_eq]
            have hpre : fencePat.isPrefixOf (c :: subDelF fencePat n rest) = false := by
              cases h : fencePat.isPrefixOf (c :: subDelF fencePat n rest)
              · rfl
              · have := (fence_isPrefixOf_iff_headTicks _).mp h
                rw [headTicks_cons, if_neg hc] at this
                omega
            rw [hpre, ih1]
            rfl
          · intro hle
            rw [headTicks_cons, if_neg hc, headTicks_cons, if_neg hc]

/-! ## Properties of whitespace splitting and joining -/

lemma words_space_cons {c : Char} (t : List Char) (h : isSpaceChar c = true) :
    words (c :: t) = words t := by
  cases t with
  | nil => simp [words, h]
  | cons d r => simp [words, h]

lemma words_mem_props :
    ∀ (s : List Char), ∀ w ∈ words s,
      w ≠ [] ∧ w.all (fun c => !isSpaceChar c) = true := by
  intro s
  induction s with
  | nil => intro w hw; simp [words] at hw
  | cons c s2 ih =>
    intro w hw
    cases s2 with
    | nil =>
      by_cases hc : isSpaceChar c
      · simp [words, hc] at hw
      · simp [words, hc] at hw
        subst hw
        exact ⟨by simp, by simp [hc]⟩
    | cons d rest =>
      by_cases hc : isSpaceChar c
      · rw [words_space_cons _ hc] at hw
        exact ih w hw
      · by_cases hd : isSpaceChar d
        · simp only [words, hc, hd, Bool.false_eq_true, if_false, if_true] at hw
          rcases List.mem_cons.mp hw with rfl | hw2
          · exact ⟨by simp, by simp [hc]⟩
          · exact ih w hw2
        · simp only [words, hc, hd, Bool.false_eq_true, if_false] at hw
          cases hws : words (d :: rest) with
          | nil => 
            rw [hws] at hw
            rcases List.mem_singleton.mp hw with rfl
            exact ⟨by simp, by simp [hc]⟩
          | cons w0 ws0 =>
            rw [hws] at hw
            rcases List.mem_cons.mp hw with rfl | hw2
            · rcases ih w0 (hws ▸ List.mem_cons_self w0 ws0) with ⟨-, hall⟩
              refine ⟨by simp, ?_⟩
              simp [hc, hall]
            · exact ih w (hws ▸ List.mem_cons_of_mem w0 hw2)

lemma words_single :
    ∀ (w : List Char), w ≠ [] → w.all (fun c => !isSpaceChar c) = true →
      words w = [w] := by
  intro w
  induction w with
  | nil => intro h; exact absurd rfl h
  | cons c w2 ih =>
    intro _ hall
    rw [List.all_cons, Bool.and_eq_true, Bool.not_eq_true'] at hall
    rcases hall with ⟨hc, hall2⟩
    cases w2 with
    | nil => simp [words, hc]
    | cons d rest =>
      have hd : isSpaceChar d = false := by
        have := List.all_eq_true.mp hall2 d (List.mem_cons_self d rest)
        rwa [Bool.not_eq_true'] at this
      have hrec : words (d :: rest) = [d :: rest] := ih (by simp) hall2
      simp only [words, hc, hd, Bool.false_eq_true, if_false, hrec]

lemma words_append_word :
    ∀ (w t : List Char), w ≠ [] → w.all (fun c => !isSpaceChar c) = true →
      words (w ++ ' ' :: t) = w :: words t := by
  intro w
  induction w with
  | nil => intro t h; exact absurd rfl h
  | cons c w2 ih =>
    intro t _ hall
    rw [List.all_cons, Bool.and_eq_true, Bool.not_eq_true'] at hall
    rcases hall with ⟨hc, hall2⟩
    cases w2 with
    | nil =>
      have hsp : isSpaceChar ' ' = true := by decide
      simp only [List.cons_append, List.nil_append]
      simp only [words, hc, hsp, Bool.false_eq_true, if_false, if_true]
      rw [words_space_cons t hsp]
    | cons d rest =>
      have hd : isSpaceChar d = false := by
        have := List.all_eq_true.mp hall2 d (List.mem_cons_self d rest)
        rwa [Bool.not_eq_true'] at this
      have hrec : words ((d :: rest) ++ ' ' :: t) = (d :: rest) :: words t :=
        ih t (by simp) hall2
      simp only [List.cons_append] at hrec ⊢
      simp only [words, hc, hd, Bool.false_eq_true, if_false, hrec]

lemma words_joinSp :
    ∀ (ws : List (List Char)),
      (∀ w ∈ ws, w ≠ [] ∧ w.all (fun c => !isSpaceChar c) = true) →
      words (joinSp ws) = ws := by
  intro ws
  induction ws with
  | nil => intro _; rfl
  | cons w ws2 ih =>
    intro hws
    rcases hws w (List.mem_cons_self w ws2) with ⟨hne, hall⟩
    cases ws2 with
    | nil => simpa [joinSp] using words_single w hne hall
    | cons w2 ws3 =>
      have : joinSp (w :: w2 :: ws3) = w ++ ' ' :: joinSp (w2 :: ws3) := rfl
      rw [this, words_append_word w _ hne hall,
        ih (fun x hx => hws x (List.mem_cons_of_mem w hx))]

lemma words_head_decomp :
    ∀ (s2 : List Char) (d : Char) (w : List Char) (ws : List (List Char)),
      isSpaceChar d = false → words (d :: s2) = w :: ws →
      ∃ b, d :: s2 = w ++ b := by
  intro s2
  induction s2 with
  | nil =>
    intro d w ws hd hw
    simp [words, hd] at hw
    exact ⟨[], by simp [← hw.1]⟩
  | cons e rest ih =>
    intro d w ws hd hw
    by_cases he : isSpaceChar e
    · simp only [words, hd, he, Bool.false_eq_true, if_false, if_true] at hw
      rw [List.cons.injEq] at hw
      exact ⟨e :: rest, by simp [← hw.1]⟩
    · simp only [words, hd, he, Bool.false_eq_true, if_false] at hw
      cases hws : words (e :: rest) with
      | nil =>
        rw [hws] at hw
        rw [List.cons.injEq] at hw
        exact ⟨e :: rest, by simp [← hw.1]⟩
      | cons w0 ws0 =>
        rw [hws] at hw
        rw [List.cons.injEq] at hw
        rcases ih e w0 ws0 (bool_eq_false_of_ne_true he) hws with ⟨b, hb⟩
        refine ⟨b, ?_⟩
        rw [← hw.1, List.cons_append, ← hb]

lemma words_mem_isSubstring :
    ∀ (s : List Char), ∀ w ∈ words s, ∀ p : List Char,
      isSubstring p w = true → isSubstring p s = true := by
  intro s
  induction s with
  | nil => intro w hw; simp [words] at hw
  | cons c s2 ih =>
    intro w hw p hp
    cases s2 with
    | nil =>
      by_cases hc : isSpaceChar c
      · simp [words, hc] at hw
      · simp [words, hc] at hw
        subst hw
        exact hp
    | cons d rest =>
      by_cases hc : isSpaceChar c
      · rw [words_space_cons _ hc] at hw
        exact isSubstring_tail_ext c (ih w hw p hp)
      · by_cases hd : isSpaceChar d
        · simp only [words, hc, hd, Bool.false_eq_true, if_false, if_true] at hw
          rcases List.mem_cons.mp hw with rfl | hw2
          · exact isSubstring_append_ext (b := d :: rest) hp
          · exact isSubstring_tail_ext c (ih w hw2 p hp)
        · simp only [words, hc, hd, Bool.false_eq_true, if_false] at hw
          cases hws : words (d :: rest) with
          | nil =>
            rw [hws] at hw
            rcases List.mem_singleton.mp hw with rfl
            exact isSubstring_append_ext (b := d :: rest) hp
          | cons w0 ws0 =>
            rw [hws] at hw
            rcases List.mem_cons.mp hw with rfl | hw2
            · rcases words_head_decomp rest d w0 ws0 (bool_eq_false_of_ne_true hd) hws with ⟨b, hb⟩
              have : isSubstring p ((c :: w0) ++ b) = true :=
                isSubstring_append_ext hp
              rw [List.cons_append, ← hb] at this
              exact this
            · exact isSubstring_tail_ext c
                (ih w (hws ▸ List.mem_cons_of_mem w0 hw2) p hp)

lemma isPrefixOf_before_space :
    ∀ (p w t : List Char), (∀ c ∈ p, c ≠ ' ') →
      p.isPrefixOf (w ++ ' ' :: t) = true → p.isPrefixOf w = true := by
  intro p
  induction p with
  | nil => intro w t _ _; cases w <;> rfl
  | cons x p2 ih =>
    intro w t hns h
    cases w with
    | nil =>
      simp only [List.nil_append, List.isPrefixOf, Bool.and_eq_true, beq_iff_eq] at h
      exact absurd h.1 (hns x (List.mem_cons_self x p2))
    | cons y w2 =>
      simp only [List.cons_append, List.isPrefixOf, Bool.and_eq_true] at h ⊢
      exact ⟨h.1, ih w2 t (fun c hc => hns c (List.mem_cons_of_mem x hc)) h.2⟩

lemma isSubstring_split_at_space :
    ∀ (w : List Char) (p t : List Char), p ≠ [] → (∀ c ∈ p, c ≠ ' ') →
      isSubstring p (w ++ ' ' :: t) = true →
      isSubstring p w = true ∨ isSubstring p t = true := by
  intro w
  induction w with
  | nil =>
    intro p t hne hns h
    rw [List.nil_append, isSubstring_cons_eq] at h
    rcases Bool.or_eq_true_iff.mp h with h1 | h2
    · cases p with
      | nil => exact absurd rfl hne
      | cons x p2 =>
        simp only [List.isPrefixOf, Bool.and_eq_true, beq_iff_eq] at h1
        exact absurd h1.1 (hns x (List.mem_cons_self x p2))
    · exact Or.inr h2
  | cons y w2 ih =>
    intro p t hne hns h
    rw [List.cons_append, isSubstring_cons_eq] at h
    rcases Bool.or_eq_true_iff.mp h with h1 | h2
    · rw [← List.cons_append] at h1
      exact Or.inl (isSubstring_of_isPrefixOf (isPrefixOf_before_space p (y :: w2) t hns h1))
    · rcases ih p t hne hns h2 with h3 | h4
      · exact Or.inl (isSubstring_tail_ext y h3)
      · exact Or.inr h4

lemma joinSp_isSubstring_to_word :
    ∀ (ws : List (List Char)) (p : List Char), p ≠ [] → (∀ c ∈ p, c ≠ ' ') →
      isSubstring p (joinSp ws) = true → ∃ w ∈ ws, isSubstring p w = true := by
  intro ws
  induction ws with
  | nil =>
    intro p hne _ h
    exact absurd (List.isEmpty_iff.mp h) hne
  | cons w ws2 ih =>
    intro p hne hns h
    cases ws2 with
    | nil => exact ⟨w, List.mem_singleton.mpr rfl, h⟩
    | cons w2 ws3 =>
      have hj : joinSp (w :: w2 :: ws3) = w ++ ' ' :: joinSp (w2 :: ws3) := rfl
      rw [hj] at h
      rcases isSubstring_split_at_space w p _ hne hns h with h1 | h2
      · exact ⟨w, List.mem_cons_self w (w2 :: ws3), h1⟩
      · rcases ih p hne hns h2 with ⟨w3, hw3, hsub⟩
        exact ⟨w3, List.mem_cons_of_mem w hw3, hsub⟩

/-! ## The collapsed text is already stripped -/

lemma dropWhile_cons_of_false {p : Char → Bool} {c : Char} {t : List Char}
    (h : p c = false) : List.dropWhile p (c :: t) = c :: t := by
  rw [List.dropWhile_cons, h]
  simp

lemma joinSp_head_nonspace :
    ∀ (w : List Char) (ws : List (List Char)), w ≠ [] →
      ∃ c t, joinSp (w :: ws) = c :: t ∧ c ∈ w := by
  intro w ws hne
  cases w with
  | nil => exact absurd rfl hne
  | cons c w2 =>
    cases ws with
    | nil => exact ⟨c, w2, rfl, List.mem_cons_self c w2⟩
    | cons w3 ws2 =>
      exact ⟨c, w2 ++ ' ' :: joinSp (w3 :: ws2), rfl, List.mem_cons_self c w2⟩

lemma joinSp_rev_nonspace :
    ∀ (ws : List (List Char)) (w : List Char), (∀ u ∈ w :: ws, u ≠ []) →
      ∃ c t, (joinSp (w :: ws)).reverse = c :: t ∧ ∃ u ∈ w :: ws, c ∈ u := by
  intro ws
  induction ws with
  | nil =>
    intro w hws
    have hne : w ≠ [] := hws w (List.mem_cons_self w [])
    cases hr : w.reverse with
    | nil => exact absurd (List.reverse_eq_nil_iff.mp hr) hne
    | cons c t =>
      refine ⟨c, t, hr, w, List.mem_cons_self w [], ?_⟩
      exact List.mem_reverse.mp (hr ▸ List.mem_cons_self c t)
  | cons w2 ws2 ih =>
    intro w hws
    rcases ih w2 (fun u hu => hws u (List.mem_cons_of_mem w hu)) with ⟨c, t, hct, u, hu, hc⟩
    have hj : joinSp (w :: w2 :: ws2) = w ++ ' ' :: joinSp (w2 :: ws2) := rfl
    refine ⟨c, t ++ ' ' :: w.reverse, ?_, u, List.mem_cons_of_mem w hu, hc⟩
    rw [hj, List.reverse_append, List.reverse_cons, hct]
    simp

lemma stripStr_joinSp_words :
    ∀ (ws : List (List Char)),
      (∀ w ∈ ws, w ≠ [] ∧ w.all (fun c => !isSpaceChar c) = true) →
      stripStr (joinSp ws) = joinSp ws := by
  intro ws hws
  cases ws with
  | nil => rfl
  | cons w ws2 =>
    rcases joinSp_head_nonspace w ws2 (hws w (List.mem_cons_self w ws2)).1 with
      ⟨c, t, hct, hcw⟩
    have hcns : isSpaceChar c = false := by
      have := List.all_eq_true.mp (hws w (List.mem_cons_self w ws2)).2 c hcw
      rwa [Bool.not_eq_true'] at this
    have h1 : (joinSp (w :: ws2)).dropWhile isSpaceChar = joinSp (w :: ws2) := by
      rw [hct, dropWhile_cons_of_false hcns]
    rcases joinSp_rev_nonspace ws2 w (fun u hu => (hws u hu).1) with
      ⟨c2, t2, hct2, u, hu, hc2⟩
    have hc2ns : isSpaceChar c2 = false := by
      have := List.all_eq_true.mp (hws u hu).2 c2 hc2
      rwa [Bool.not_eq_true'] at this
    have h2 : (joinSp (w :: ws2)).reverse.dropWhile isSpaceChar =
        (joinSp (w :: ws2)).reverse := by
      rw [hct2, dropWhile_cons_of_false hc2ns]
    unfold stripStr
    rw [h1, h2, List.reverse_reverse]

/-! ## Fixed points of the cleaning pipeline -/

lemma cleanedText_no_fence (s : List Char) :
    isSubstring fencePat (cleanedText s) = false := by
  set z := subDel fencePat (subDel fenceSqlPat s) with hz
  have hnz : isSubstring fencePat z = false := by
    rw [hz]
    exact (subDelF_fence_inv (subDel fenceSqlPat s).length
      (subDel fenceSqlPat s) (Nat.le_refl _)).1
  cases hb : isSubstring fencePat (cleanedText s) with
  | false => rfl
  | true =>
    exfalso
    have : cleanedText s = joinSp (words z) := by rw [cleanedText, hz]
    rw [this] at hb
    rcases joinSp_isSubstring_to_word (words z) fencePat (by decide)
      (by decide) hb with ⟨w, hw, hsub⟩
    have := words_mem_isSubstring z w hw fencePat hsub
    rw [hnz] at this
    exact Bool.false_ne_true this

lemma cleanedText_no_fenceSql (s : List Char) :
    isSubstring fenceSqlPat (cleanedText s) = false := by
  cases hb : isSubstring fenceSqlPat (cleanedText s) with
  | false => rfl
  | true =>
    exfalso
    have hmono : isSubstring fencePat (cleanedText s) = true :=
      isSubstring_mono_pat (by decide) hb
    rw [cleanedText_no_fence s] at hmono
    exact Bool.false_ne_true hmono

lemma stripStr_cleanedText (s : List Char) :
    stripStr (cleanedText s) = cleanedText s := by
  rw [cleanedText]
  exact stripStr_joinSp_words _ (words_mem_props _)

lemma subDel_cleanedText_fenceSql (s : List Char) :
    subDel fenceSqlPat (cleanedText s) = cleanedText s :=
  subDelF_of_no_occurrence _ _ (cleanedText_no_fenceSql s)

lemma subDel_cleanedText_fence (s : List Char) :
    subDel fencePat (cleanedText s) = cleanedText s :=
  subDelF_of_no_occurrence _ _ (cleanedText_no_fence s)

lemma words_cleanedText (s : List Char) :
    words (cleanedText s) =
      words (subDel fencePat (subDel fenceSqlPat s)) := by
  rw [cleanedText]
  exact words_joinSp _ (words_mem_props _)

lemma cleanedText_idem (s : List Char) :
    cleanedText (cleanedText s) = cleanedText s := by
  conv_lhs => rw [cleanedText]
  rw [subDel_cleanedText_fenceSql, subDel_cleanedText_fence, words_cleanedText s,
    ← cleanedText]

/-! ## Characterisation of `clean_sql_query` -/

/-- The raising condition of the keyword loop: some dangerous keyword is a
substring of the upper-cased cleaned text and that text does not start with
`SELECT`. -/
def dangerCond (s : List Char) : Prop :=
  (∃ kw ∈ dangerous_keywords,
      isSubstring kw ((cleanedText s).map Char.toUpper) = true) ∧
  "SELECT".data.isPrefixOf ((cleanedText s).map Char.toUpper) = false

instance dangerCond_decidable (s : List Char) : Decidable (dangerCond s) := by
  unfold dangerCond
  exact inferInstance

lemma clean_find_eq (s : List Char) :
    clean_sql_query s =
      match dangerous_keywords.find?
          (fun kw => isSubstring kw ((cleanedText s).map Char.toUpper) &&
            !("SELECT".data.isPrefixOf ((cleanedText s).map Char.toUpper))) with
      | some kw =>
          Except.error ("Potentially dangerous SQL operation detected: ".data ++ kw)
      | none => Except.ok (stripStr (cleanedText s)) := rfl

lemma clean_of_danger {s : List Char} (h : dangerCond s) :
    ∃ kw ∈ dangerous_keywords,
      clean_sql_query s =
        Except.error ("Potentially dangerous SQL operation detected: ".data ++ kw) := by
  rcases h with ⟨⟨kw0, hmem0, hsub0⟩, hpre⟩
  cases hf : dangerous_keywords.find?
      (fun kw => isSubstring kw ((cleanedText s).map Char.toUpper) &&
        !("SELECT".data.isPrefixOf ((cleanedText s).map Char.toUpper))) with
  | none =>
    exfalso
    have := List.find?_eq_none.mp hf kw0 hmem0
    apply this
    rw [hsub0, hpre]
    rfl
  | some kw =>
    refine ⟨kw, List.mem_of_find?_eq_some hf, ?_⟩
    rw [clean_find_eq, hf]

lemma clean_of_not_danger {s : List Char} (h : ¬ dangerCond s) :
    clean_sql_query s = Except.ok (cleanedText s) := by
  cases hf : dangerous_keywords.find?
      (fun kw => isSubstring kw ((cleanedText s).map Char.toUpper) &&
        !("SELECT".data.isPrefixOf ((cleanedText s).map Char.toUpper))) with
  | some kw =>
    exfalso
    have hp := List.find?_some hf
    rw [Bool.and_eq_true, Bool.not_eq_true'] at hp
    exact h ⟨⟨kw, List.mem_of_find?_eq_some hf, hp.1⟩, hp.2⟩
  | none =>
    rw [clean_find_eq, hf, stripStr_cleanedText]

lemma clean_ok_val {s y : List Char} (h : clean_sql_query s = Except.ok y) :
    y = cleanedText s := by
  cases hf : dangerous_keywords.find?
      (fun kw => isSubstring kw ((cleanedText s).map Char.toUpper) &&
        !("SELECT".data.isPrefixOf ((cleanedText s).map Char.toUpper))) with
  | some kw =>
    rw [clean_find_eq, hf] at h
    exact absurd h (by simp)
  | none =>
    rw [clean_find_eq, hf, stripStr_cleanedText] at h
    exact (Except.ok.injEq _ _ ▸ h).symm

lemma clean_ok_not_danger {s y : List Char} (h : clean_sql_query s = Except.ok y) :
    ¬ dangerCond s := by
  intro hd
  rcases clean_of_danger hd with ⟨kw, -, herr⟩
  rw [herr] at h
  exact absurd h (by simp)

lemma clean_idem {s y : List Char} (h : clean_sql_query s = Except.ok y) :
    clean_sql_query y = Except.ok y := by
  have hy : y = cleanedText s := clean_ok_val h
  have hyy : cleanedText y = y := by
    rw [hy, cleanedText_idem]
  have hnd : ¬ dangerCond s := clean_ok_not_danger h
  have hndy : ¬ dangerCond y := by
    intro hd
    apply hnd
    unfold dangerCond at hd ⊢
    rw [hyy] at hd
    rw [← hy]
    exact hd
  rw [clean_of_not_danger hndy, hyy]

/-! ## The fixed SQL strings are clean and valid -/

set_option maxRecDepth 400000 in
lemma allFixedSqls_ok : ∀ s ∈ allFixedSqls, cleanFixedOk s = true := by decide

lemma fixed_clean_validate {s : List Char} (h : s ∈ allFixedSqls) :
    clean_sql_query s = Except.ok s ∧ validate_sql s = true := by
  have hb := allFixedSqls_ok s h
  unfold cleanFixedOk at hb
  cases hc : clean_sql_query s with
  | error e => rw [hc] at hb; exact absurd hb (by simp)
  | ok t =>
    rw [hc] at hb
    rw [Bool.and_eq_true] at hb
    have ht : t = s := eq_of_beq hb.1
    subst ht
    exact ⟨rfl, hb.2⟩

/-! ## Resolver helpers -/

lemma tier1Find_mem_sql {q sql : List Char} (h : tier1Find q = some sql) :
    sql ∈ allFixedSqls := by
  rw [tier1Find] at h
  rcases Option.map_eq_some'.mp h with ⟨e, hfind, he⟩
  have hm : e ∈ fallback_patterns := List.mem_of_find?_eq_some hfind
  rw [allFixedSqls, List.mem_append]
  exact Or.inl (he ▸ List.mem_map_of_mem (fun e => e.2) hm)

lemma tier2Find_mem_sql {q sql : List Char} (h : tier2Find q = some sql) :
    sql ∈ allFixedSqls := by
  rw [tier2Find] at h
  rcases Option.map_eq_some'.mp h with ⟨e, hfind, he⟩
  have hm : e ∈ rule_based_patterns := List.mem_of_find?_eq_some hfind
  rw [allFixedSqls, List.mem_append]
  refine Or.inr (List.mem_append.mpr (Or.inl ?_))
  exact he ▸ List.mem_map_of_mem (fun e => e.2) hm

lemma default_mem_sql : "SELECT * FROM sales LIMIT 10".data ∈ allFixedSqls := by
  rw [allFixedSqls, List.mem_append, List.mem_append]
  exact Or.inr (Or.inr (List.mem_singleton.mpr rfl))

lemma resolve_tier1 {q sql : List Char} (h : tier1Find q = some sql)
    (hasKey : Bool) (llm : Option (List Char)) :
    natural_language_to_sql hasKey llm q = (sql, "Pattern matching".data) := by
  rw [natural_language_to_sql, resolveBody, h]
  rfl

lemma resolve_no_key {q : List Char} (h : tier1Find q = none)
    (llm : Option (List Char)) :
    natural_language_to_sql false llm q = rule_based_to_sql q := by
  rw [natural_language_to_sql, resolveBody, h]
  rfl

lemma resolve_key_no_resp {q : List Char} (h : tier1Find q = none) :
    natural_language_to_sql true none q = rule_based_to_sql q := by
  rw [natural_language_to_sql, resolveBody, h]
  rfl

lemma resolve_key_resp {q t : List Char} (h : tier1Find q = none) :
    natural_language_to_sql true (some t) q =
      (match clean_sql_query (stripStr t) with
       | Except.ok cleaned => (cleaned, "OpenAI GPT".data)
       | Except.error _ => rule_based_to_sql q) := by
  rw [natural_language_to_sql, resolveBody, h]
  rfl

lemma rule_based_some {q sql : List Char} (h : tier2Find q = some sql) :
    rule_based_to_sql q = (sql, "Rule-based matching".data) := by
  rw [rule_based_to_sql, h]

lemma rule_based_none {q : List Char} (h : tier2Find q = none) :
    rule_based_to_sql q =
      ("SELECT * FROM sales LIMIT 10".data, "Default fallback".data) := by
  rw [rule_based_to_sql, h]

/-! ## Blank questions match nothing -/

lemma toLower_of_space {c : Char} (h : isSpaceChar c = true) :
    Char.toLower c = c := by
  have h6 : c = ' ' ∨ c = '\t' ∨ c = '\n' ∨ c = '\r' ∨ c = '\x0b' ∨ c = '\x0c' := by
    rw [isSpaceChar] at h
    simp only [Bool.or_eq_true, beq_iff_eq] at h
    tauto
  rcases h6 with rfl | rfl | rfl | rfl | rfl | rfl <;> decide

lemma lowerL_all_space {q : List Char} (h : q.all isSpaceChar = true) :
    (lowerL q).all isSpaceChar = true := by
  rw [lowerL, List.all_map]
  rw [List.all_eq_true] at h ⊢
  intro c hc
  have hs := h c hc
  show isSpaceChar (Char.toLower c) = true
  rw [toLower_of_space hs]
  exact hs

lemma firstLine_all_space {q : List Char} (h : q.all isSpaceChar = true) :
    (firstLine q).all isSpaceChar = true := by
  rw [List.all_eq_true] at h ⊢
  intro c hc
  exact h c (( List.takeWhile_prefix _).sublist.subset hc)

lemma linesOf_all_space :
    ∀ (q : List Char), q.all isSpaceChar = true →
      ∀ ln ∈ linesOf q, ln.all isSpaceChar = true := by
  intro q
  induction q with
  | nil =>
    intro _ ln hln
    rcases List.mem_singleton.mp hln with rfl
    rfl
  | cons c rest ih =>
    intro h ln hln
    rw [List.all_cons, Bool.and_eq_true] at h
    by_cases hc : c = '\n'
    · rw [linesOf, if_pos hc] at hln
      rcases List.mem_cons.mp hln with rfl | hln2
      · rfl
      · exact ih h.2 ln hln2
    · rw [linesOf, if_neg hc] at hln
      cases hls : linesOf rest with
      | nil =>
        rw [hls] at hln
        rcases List.mem_singleton.mp hln with rfl
        simp [h.1]
      | cons l ls =>
        rw [hls] at hln
        rcases List.mem_cons.mp hln with rfl | hln2
        · have hl : l.all isSpaceChar = true :=
            ih h.2 l (hls ▸ List.mem_cons_self l ls)
          rw [List.all_cons, Bool.and_eq_true]
          exact ⟨h.1, hl⟩
        · exact ih h.2 ln (hls ▸ List.mem_cons_of_mem l hln2)

lemma matchFromF_all_space :
    ∀ (n : Nat) (g : List (List Char)) (gs : List (List (List Char)))
      (s : List Char),
      (∀ alt ∈ g, alt.all isSpaceChar = false) → s.all isSpaceChar = true →
      matchFromF n (g :: gs) s = false := by
  intro n
  induction n with
  | zero => intro g gs s _ _; rfl
  | succ n ih =>
    intro g gs s hg hs
    cases s with
    | nil =>
      simp only [matchFromF]
      rw [List.any_eq_false]
      intro alt halt
      have hne : alt.isEmpty = false := by
        cases ha : alt.isEmpty
        · rfl
        · exfalso
          have : alt = [] := List.isEmpty_iff.mp ha
          subst this
          have hfalse := hg [] halt
          simp at hfalse
      rw [hne]
      simp
    | cons c rest =>
      simp only [matchFromF]
      rw [Bool.or_eq_false_iff]
      constructor
      · rw [List.any_eq_false]
        intro alt halt
        cases hp : alt.isPrefixOf (c :: rest)
        · simp
        · exfalso
          have := all_of_isPrefixOf hp hs
          rw [hg alt halt] at this
          exact Bool.false_ne_true this
      · refine ih g gs rest hg ?_
        rw [List.all_cons, Bool.and_eq_true] at hs
        exact hs.2

lemma tier1Match_space {g : List (List Char)} {gs : List (List (List Char))}
    {q : List Char} (hg : ∀ alt ∈ g, alt.all isSpaceChar = false)
    (hq : q.all isSpaceChar = true) : tier1Match (g :: gs) q = false := by
  rw [tier1Match, matchFrom]
  exact matchFromF_all_space _ g gs _ hg (lowerL_all_space (firstLine_all_space hq))

lemma tier2Match_space {g : List (List Char)} {gs : List (List (List Char))}
    {q : List Char} (hg : ∀ alt ∈ g, alt.all isSpaceChar = false)
    (hq : q.all isSpaceChar = true) : tier2Match (g :: gs) q = false := by
  rw [tier2Match, List.any_eq_false]
  intro ln hln
  rw [matchFrom]
  intro htrue
  have hfl := matchFromF_all_space ((g :: gs).length + (lowerL ln).length + 1)
    g gs (lowerL ln) hg (lowerL_all_space (linesOf_all_space q hq ln hln))
  rw [hfl] at htrue
  exact Bool.false_ne_true htrue

lemma tier1Find_all_space {q : List Char} (hq : q.all isSpaceChar = true) :
    tier1Find q = none := by
  rw [tier1Find]
  have hnone : fallback_patterns.find? (fun e => tier1Match e.1 q) = none := by
    rw [List.find?_eq_none]
    intro e he
    simp only [fallback_patterns, List.mem_cons, List.not_mem_nil, or_false] at he
    rcases he with rfl | rfl | rfl | rfl | rfl | rfl | rfl | rfl | rfl <;>
    · intro htrue
      rw [tier1Match_space (by decide) hq] at htrue
      exact Bool.false_ne_true htrue
  rw [hnone]
  rfl

lemma tier2Find_all_space {q : List Char} (hq : q.all isSpaceChar = true) :
    tier2Find q = none := by
  rw [tier2Find]
  have hnone : rule_based_patterns.find? (fun e => tier2Match e.1 q) = none := by
    rw [List.find?_eq_none]
    intro e he
    simp only [rule_based_patterns, List.mem_cons, List.not_mem_nil, or_false] at he
    rcases he with rfl | rfl | rfl | rfl | rfl | rfl | rfl | rfl | rfl | rfl | rfl | rfl <;>
    · intro htrue
      rw [tier2Match_space (by decide) hq] at htrue
      exact Bool.false_ne_true htrue
  rw [hnone]
  rfl

instance exceptListCharDecEq : DecidableEq (Except (List Char) (List Char))
  | Except.ok x, Except.ok y =>
    if h : x = y then Decidable.isTrue (congrArg Except.ok h)
    else Decidable.isFalse (fun hc => h (Except.ok.inj hc))
  | Except.ok _, Except.error _ => Decidable.isFalse (fun hc => Except.noConfusion hc)
  | Except.error _, Except.ok _ => Decidable.isFalse (fun hc => Except.noConfusion hc)
  | Except.error x, Except.error y =>
    if h : x = y then Decidable.isTrue (congrArg Except.error h)
    else Decidable.isFalse (fun hc => h (Except.error.inj hc))

/-! ## Claims -/

/-- C5: `clean_sql_query` (sanitize) first strips code-fence markers and
collapses whitespace runs to single spaces; it then fails (raises
`ValueError`, modelled as `Except.error`) exactly when a mutating keyword
occurs case-insensitively in the cleaned text while the cleaned text does
not begin with `SELECT`; otherwise it returns the cleaned string. -/
theorem c5_sanitize_spec : ∀ s : List Char,
    (dangerCond s →
      ∃ kw ∈ dangerous_keywords,
        clean_sql_query s =
          Except.error ("Potentially dangerous SQL operation detected: ".data ++ kw)) ∧
    (¬ dangerCond s → clean_sql_query s = Except.ok (cleanedText s)) :=
  fun _ => ⟨clean_of_danger, clean_of_not_danger⟩

set_option maxRecDepth 400000 in
/-- Witness for C5 at two concrete inputs: a mutating statement is
rejected and a plain `SELECT` is returned cleaned. -/
theorem c5_sanitize_spec_witness :
    (∃ kw ∈ dangerous_keywords,
        clean_sql_query "DROP TABLE users".data =
          Except.error ("Potentially dangerous SQL operation detected: ".data ++ kw)) ∧
    clean_sql_query "SELECT name FROM users".data =
      Except.ok (cleanedText "SELECT name FROM users".data) :=
  ⟨(c5_sanitize_spec _).1 (by decide), (c5_sanitize_spec _).2 (by decide)⟩

set_option maxRecDepth 400000 in
/-- C4 counterexample: `SELECT * FROM t -- DROP` contains the mutating
keyword `DROP`, yet `clean_sql_query` does *not* flag it: because the
cleaned text starts with `SELECT`, the keyword check is skipped and the
string is returned unchanged, contradicting the claim that sanitize
"still flags it". -/
theorem c4_counterexample :
    (∃ kw ∈ dangerous_keywords,
        isSubstring kw (("SELECT * FROM t -- DROP".data).map Char.toUpper) = true) ∧
    clean_sql_query "SELECT * FROM t -- DROP".data =
      Except.ok "SELECT * FROM t -- DROP".data := by decide

/-- C4 amended: for every string whose cleaned text begins with `SELECT`,
even when a mutating keyword occurs elsewhere in it, `clean_sql_query`
does not raise: it returns the cleaned string. -/
theorem c4_amended : ∀ s : List Char,
    (∃ kw ∈ dangerous_keywords,
        isSubstring kw ((cleanedText s).map Char.toUpper) = true) →
    "SELECT".data.isPrefixOf ((cleanedText s).map Char.toUpper) = true →
    clean_sql_query s = Except.ok (cleanedText s) := by
  intro s _ hpre
  apply clean_of_not_danger
  intro hd
  rw [hd.2] at hpre
  exact Bool.false_ne_true hpre

set_option maxRecDepth 400000 in
/-- Witness for the amended C4 at the claim's own example. -/
theorem c4_amended_witness :
    clean_sql_query "SELECT * FROM t -- DROP".data =
      Except.ok (cleanedText "SELECT * FROM t -- DROP".data) :=
  c4_amended _ (by decide) (by decide)

/-- C9: sanitize is idempotent on clean input: whenever `clean_sql_query`
succeeds with output `y`, running it again on `y` succeeds and returns `y`
unchanged. -/
theorem c9_sanitize_idempotent : ∀ x y : List Char,
    clean_sql_query x = Except.ok y → clean_sql_query y = Except.ok y :=
  fun _ _ h => clean_idem h

set_option maxRecDepth 400000 in
/-- Witness for C9 on a fenced, unevenly spaced input. -/
theorem c9_sanitize_idempotent_witness :
    clean_sql_query "```sql\nSELECT *  FROM t\n```".data =
      Except.ok "SELECT * FROM t".data ∧
    clean_sql_query "SELECT * FROM t".data =
      Except.ok "SELECT * FROM t".data :=
  ⟨by decide,
   c9_sanitize_idempotent "```sql\nSELECT *  FROM t\n```".data
     "SELECT * FROM t".data (by decide)⟩

/-- C8: `validate_sql` never throws (it is a total boolean function); it
returns `false` whenever the cleaned statement does not begin with
`SELECT` (case-insensitively) or its parenthesis counts differ, and on the
claim's two examples it returns `false` (unbalanced) and `true`
(balanced). -/
theorem c8_validate_spec :
    (∀ s : List Char,
        ("SELECT".data.isPrefixOf ((cleanedText s).map Char.toUpper) = false ∨
          (cleanedText s).count '(' ≠ (cleanedText s).count ')') →
        validate_sql s = false) ∧
    validate_sql "SELECT * FROM t WHERE (a = 1".data = false ∧
    validate_sql "SELECT * FROM t WHERE (a = 1)".data = true := by
  refine ⟨?_, by decide, by decide⟩
  intro s h
  cases hc : clean_sql_query s with
  | error e => simp [validate_sql, hc]
  | ok y =>
    have hy : y = cleanedText s := clean_ok_val hc
    subst hy
    rcases h with h1 | h2
    · simp [validate_sql, hc, h1]
    · have hbne : ((cleanedText s).count '(' != (cleanedText s).count ')') = true :=
        bne_iff_ne.mpr h2
      simp [validate_sql, hc, hbne]

set_option maxRecDepth 400000 in
/-- Witness for C8: a statement not beginning with `SELECT` validates to
`false` via the theorem's first component. -/
theorem c8_validate_spec_witness : validate_sql "DROP TABLE t".data = false :=
  c8_validate_spec.1 "DROP TABLE t".data (Or.inl (by decide))

/-- C7: for a question matching no tier-1 and no tier-2 pattern, with no
credential configured, tier 3 is skipped (the result is the same for every
modelled remote behaviour `llm`) and the resolver returns the fixed
default `SELECT * FROM sales LIMIT 10` with the default-fallback method
string, which carries the spec tag "rule-based". -/
theorem c7_default_fallback : ∀ (q : List Char) (llm : Option (List Char)),
    tier1Find q = none → tier2Find q = none →
    natural_language_to_sql false llm q =
      ("SELECT * FROM sales LIMIT 10".data, "Default fallback".data) ∧
    methodTag "Default fallback".data = some MethodTag.ruleBased := by
  intro q llm h1 h2
  exact ⟨by rw [resolve_no_key h1 llm, rule_based_none h2], by decide⟩

set_option maxRecDepth 400000 in
/-- Witness for C7 at the unmatched question `hello`. -/
theorem c7_default_fallback_witness :
    natural_language_to_sql false none "hello".data =
      ("SELECT * FROM sales LIMIT 10".data, "Default fallback".data) :=
  (c7_default_fallback "hello".data none (by decide) (by decide)).1

set_option maxRecDepth 400000 in
/-- C1 counterexample: `count sales` matches a tier-2 entry (and no tier-1
entry), yet with a credential configured and a successful remote call the
resolver returns the remote result, not the tier-2 SQL — so the result is
*not* independent of the remote credential, contradicting the claim. -/
theorem c1_counterexample :
    tier1Find "count sales".data = none ∧
    tier2Find "count sales".data =
      some "SELECT COUNT(*) as total_sales_count FROM sales".data ∧
    natural_language_to_sql true (some "SELECT 99".data) "count sales".data =
      ("SELECT 99".data, "OpenAI GPT".data) ∧
    natural_language_to_sql false none "count sales".data =
      ("SELECT COUNT(*) as total_sales_count FROM sales".data,
        "Rule-based matching".data) := by decide

/-- C1 amended: a tier-1 match always returns the first matching tier-1
entry's SQL, for every credential state and remote behaviour; a tier-2
match returns the first matching tier-2 entry's SQL when no credential is
configured, or when the remote call fails — tier 3 preempts tier 2
otherwise. -/
theorem c1_amended :
    (∀ (hasKey : Bool) (llm : Option (List Char)) (q sql : List Char),
        tier1Find q = some sql →
        natural_language_to_sql hasKey llm q = (sql, "Pattern matching".data)) ∧
    (∀ (llm : Option (List Char)) (q sql : List Char),
        tier1Find q = none → tier2Find q = some sql →
        natural_language_to_sql false llm q = (sql, "Rule-based matching".data)) ∧
    (∀ (q sql : List Char),
        tier1Find q = none → tier2Find q = some sql →
        natural_language_to_sql true none q = (sql, "Rule-based matching".data)) := by
  refine ⟨?_, ?_, ?_⟩
  · intro hasKey llm q sql h
    exact resolve_tier1 h hasKey llm
  · intro llm q sql h1 h2
    rw [resolve_no_key h1 llm, rule_based_some h2]
  · intro q sql h1 h2
    rw [resolve_key_no_resp h1, rule_based_some h2]

set_option maxRecDepth 400000 in
/-- Witness for the amended C1: a tier-1 hit is returned even with a
credential and a remote response available, and a tier-2 hit is returned
without a credential. -/
theorem c1_amended_witness :
    natural_language_to_sql true (some "SELECT 99".data)
        "show me all sales data".data =
      ("SELECT * FROM sales ORDER BY sale_date DESC".data,
        "Pattern matching".data) ∧
    natural_language_to_sql false none "count sales".data =
      ("SELECT COUNT(*) as total_sales_count FROM sales".data,
        "Rule-based matching".data) :=
  ⟨c1_amended.1 true (some "SELECT 99".data) "show me all sales data".data
      "SELECT * FROM sales ORDER BY sale_date DESC".data (by decide),
   c1_amended.2.1 none "count sales".data
      "SELECT COUNT(*) as total_sales_count FROM sales".data
      (by decide) (by decide)⟩

set_option maxRecDepth 400000 in
/-- C2 counterexample: with a credential configured and a remote call
returning `(SELECT 1)`, the resolver returns it with the llm method (not
an error), yet `validate_sql` rejects it — the returned SQL is only
sanitized, never validated, contradicting the claim that every non-error
result passes `validate`. -/
theorem c2_counterexample :
    natural_language_to_sql true (some "(SELECT 1)".data) "hello".data =
      ("(SELECT 1)".data, "OpenAI GPT".data) ∧
    methodTag "OpenAI GPT".data = some MethodTag.llm ∧
    validate_sql "(SELECT 1)".data = false := by decide

/-- C2 amended: every non-error result's SQL passes the sanitizer
unchanged (`clean_sql_query` succeeds and returns it as is); results not
produced by the remote path moreover pass `validate_sql`.  (The original
claim fails only for remote results, which are sanitized but not
validated.) -/
theorem c2_amended : ∀ (hasKey : Bool) (llm : Option (List Char)) (q : List Char),
    methodTag (natural_language_to_sql hasKey llm q).2 ≠ some MethodTag.error →
    clean_sql_query (natural_language_to_sql hasKey llm q).1 =
      Except.ok (natural_language_to_sql hasKey llm q).1 ∧
    (methodTag (natural_language_to_sql hasKey llm q).2 ≠ some MethodTag.llm →
      validate_sql (natural_language_to_sql hasKey llm q).1 = true) := by
  intro hasKey llm q _
  cases h1 : tier1Find q with
  | some sql =>
    rw [resolve_tier1 h1 hasKey llm]
    rcases fixed_clean_validate (tier1Find_mem_sql h1) with ⟨hc, hv⟩
    exact ⟨hc, fun _ => hv⟩
  | none =>
    have hrb : clean_sql_query (rule_based_to_sql q).1 =
        Except.ok (rule_based_to_sql q).1 ∧
        validate_sql (rule_based_to_sql q).1 = true := by
      cases h2 : tier2Find q with
      | some sql =>
        rw [rule_based_some h2]
        exact fixed_clean_validate (tier2Find_mem_sql h2)
      | none =>
        rw [rule_based_none h2]
        exact fixed_clean_validate default_mem_sql
    cases hasKey with
    | false =>
      rw [resolve_no_key h1 llm]
      exact ⟨hrb.1, fun _ => hrb.2⟩
    | true =>
      cases llm with
      | none =>
        rw [resolve_key_no_resp h1]
        exact ⟨hrb.1, fun _ => hrb.2⟩
      | some t =>
        rw [resolve_key_resp h1]
        cases hcl : clean_sql_query (stripStr t) with
        | error e => exact ⟨hrb.1, fun _ => hrb.2⟩
        | ok y =>
          refine ⟨clean_idem hcl, ?_⟩
          intro hm
          exact absurd
            (by decide : methodTag "OpenAI GPT".data = some MethodTag.llm) hm

set_option maxRecDepth 400000 in
/-- Witness for the amended C2: the default-fallback result on `hello` is
clean and valid. -/
theorem c2_amended_witness :
    clean_sql_query (natural_language_to_sql false none "hello".data).1 =
      Except.ok (natural_language_to_sql false none "hello".data).1 ∧
    validate_sql (natural_language_to_sql false none "hello".data).1 = true :=
  ⟨(c2_amended false none "hello".data (by decide)).1,
   (c2_amended false none "hello".data (by decide)).2 (by decide)⟩

lemma methodTag_pattern :
    methodTag "Pattern matching".data = some MethodTag.pattern := by decide

lemma methodTag_rule :
    methodTag "Rule-based matching".data = some MethodTag.ruleBased := by decide

lemma methodTag_llm_tag :
    methodTag "OpenAI GPT".data = some MethodTag.llm := by decide

/-- C3: for every input and every modelled remote behaviour, the method
string of the result denotes exactly one of the spec's four tags
`pattern`, `rule-based`, `llm`, `error` under the `methodTag`
correspondence ("Pattern matching" ↦ pattern, "Rule-based matching" and
"Default fallback" ↦ rule-based, "OpenAI GPT" ↦ llm, "Error: ..." ↦
error). -/
theorem c3_method_tags : ∀ (hasKey : Bool) (llm : Option (List Char)) (q : List Char),
    ∃ t : MethodTag, methodTag (natural_language_to_sql hasKey llm q).2 = some t := by
  intro hasKey llm q
  cases h1 : tier1Find q with
  | some sql =>
    rw [resolve_tier1 h1 hasKey llm]
    exact ⟨MethodTag.pattern, methodTag_pattern⟩
  | none =>
    have hrb : ∃ t, methodTag (rule_based_to_sql q).2 = some t := by
      cases h2 : tier2Find q with
      | some sql =>
        rw [rule_based_some h2]
        exact ⟨MethodTag.ruleBased, methodTag_rule⟩
      | none =>
        rw [rule_based_none h2]
        exact ⟨MethodTag.ruleBased, by decide⟩
    cases hasKey with
    | false =>
      rw [resolve_no_key h1 llm]
      exact hrb
    | true =>
      cases llm with
      | none =>
        rw [resolve_key_no_resp h1]
        exact hrb
      | some t =>
        rw [resolve_key_resp h1]
        cases hcl : clean_sql_query (stripStr t) with
        | error e => exact hrb
        | ok y => exact ⟨MethodTag.llm, methodTag_llm_tag⟩

/-- C6: the resolver is the handler applied to the body, and the handler
converts every exception `e` escaping the body into the degenerate result
`("SELECT 1 as error", "Error: " ++ e)`, whose method string carries the
spec tag `error` — so resolution never throws past its boundary. -/
theorem c6_error_boundary :
    (∀ (hasKey : Bool) (llm : Option (List Char)) (q : List Char),
        natural_language_to_sql hasKey llm q =
          resolveHandler (resolveBody hasKey llm q)) ∧
    (∀ e : List Char,
        resolveHandler (Except.error e) =
          ("SELECT 1 as error".data, "Error: ".data ++ e) ∧
        methodTag ("Error: ".data ++ e) = some MethodTag.error) := by
  refine ⟨fun _ _ _ => rfl, fun e => ⟨rfl, ?_⟩⟩
  have hp : "Error: ".data.isPrefixOf ("Error: ".data ++ e) = true :=
    isPrefixOf_eq_true_iff.mpr (List.prefix_append _ _)
  rw [methodTag, hp]
  simp

/-- C10: for every blank (all-whitespace, in particular empty) question,
no tier-1 or tier-2 pattern matches, and with no credential configured
the resolver does not fail: for every modelled remote behaviour it returns
the default fallback `SELECT * FROM sales LIMIT 10` with the
default-fallback method string, whose spec tag is `rule-based`, not
`error`. -/
theorem c10_blank_question : ∀ q : List Char, q.all isSpaceChar = true →
    ∀ llm : Option (List Char),
      tier1Find q = none ∧ tier2Find q = none ∧
      natural_language_to_sql false llm q =
        ("SELECT * FROM sales LIMIT 10".data, "Default fallback".data) ∧
      methodTag "Default fallback".data = some MethodTag.ruleBased := by
  intro q hq llm
  have h1 := tier1Find_all_space hq
  have h2 := tier2Find_all_space hq
  exact ⟨h1, h2, by rw [resolve_no_key h1 llm, rule_based_none h2], by decide⟩

set_option maxRecDepth 400000 in
/-- Witness for C10 at the whitespace-only question of three spaces. -/
theorem c10_blank_question_witness :
    natural_language_to_sql false none "   ".data =
      ("SELECT * FROM sales LIMIT 10".data, "Default fallback".data) :=
  (c10_blank_question "   ".data (by decide) none).2.2.1
